import Mathlib

/-!
Verification of the dota-odds-calc probability engine (`src/main.rs`).

The source computes, over a fixed 50-entry per-rarity odds table,
the expected number of additional treasure openings until success and
the probability of success within a number of boxes, extrapolating the
last odds entry flat beyond the table.  The f32 arithmetic of the source
is embedded as exact rational arithmetic over `ℚ`.
-/

/-- `MAX_ODDS` from the source: the length of every odds table. -/
def MAX_ODDS : ℕ := 50

/-- The rarity tiers of the source's `enum Rarity`. -/
inductive Rarity where
  | Rare : Rarity
  | VeryRare : Rarity
  | UltraRare : Rarity
deriving DecidableEq

/-- `Rarity::odds`: the fixed 50-entry odds table of each tier,
with the f32 constants read as exact rationals. -/
def Rarity.odds : Rarity → List ℚ
  | .Rare =>
      [20000, 583, 187, 88, 51, 33, 23, 17, 13.1, 10.4, 8.5, 7.1, 6.0, 5.2, 4.5,
       4.0, 3.6, 3.2, 2.9, 2.6, 2.4, 2.2, 2.1, 1.9, 1.8, 1.7, 1.6, 1.5, 1.5, 1.4, 1.3,
       1.3, 1.2, 1.2, 1.2, 1.1, 1.1, 1.1, 1.1, 1.0, 1.0, 1.0, 1.0, 1.0, 1.0, 1.0, 1.0,
       1.0, 1.0, 1.0]
  | .VeryRare =>
      [20000, 3653, 1059, 485, 276, 178, 124, 92, 70, 56, 45, 38, 32, 27,
       24, 21, 18, 16, 14.1, 12.7, 11.5, 10.5, 9.6, 8.8, 8.1, 7.5, 7.0, 6.5, 6.0, 5.7,
       5.3, 5.0, 4.7, 4.5, 4.2, 4.0, 3.8, 3.6, 3.4, 3.3, 3.2, 3.0, 2.9, 2.8, 2.7, 2.6,
       2.5, 2.4, 2.3, 2.2]
  | .UltraRare =>
      [100000, 27380, 8614, 4021, 2303, 1486, 1037, 764, 586, 464, 376,
       311, 262, 223, 193, 168, 148, 131, 117, 105, 95, 86, 79, 72, 66, 61,
       57, 53, 49, 46, 43, 40, 38, 35, 33, 32, 30, 28, 27, 26, 24, 23,
       22, 21, 20, 19, 19, 18, 17, 17]

/-- The table's last stored entry, `rarity.odds().last().unwrap()`
(the table is statically nonempty, so the default is never taken). -/
def lastOdds (r : Rarity) : ℚ := r.odds.getLastD 0

/-- The odds used for the 0-based attempt index `i`: the stored entry for
`i < MAX_ODDS`, and the last stored entry beyond the table (the
`chain(repeat(last))` extrapolation of the source). -/
def lookup (r : Rarity) (i : ℕ) : ℚ := (r.odds[i]?).getD (lastOdds r)

/-- One iteration of the `expected_value` loop: state `(cum_prob, exp)`,
`s = treasure_opening - 1`, current table index `i`. -/
def evStep (r : Rarity) (s : ℕ) (st : ℚ × ℚ) (i : ℕ) : ℚ × ℚ :=
  let p := 1 / lookup r i
  (st.1 * (1 - p), st.2 + (((i + 1) - s : ℕ) : ℚ) * st.1 * p)

/-- The `expected_value` loop: fold over the table indices from
`s = treasure_opening - 1` to `MAX_ODDS - 1`, starting from
`cum_prob = 1`, `exp = 0`. -/
def evLoop (r : Rarity) (s : ℕ) : ℚ × ℚ :=
  ((List.range MAX_ODDS).drop s).foldl (evStep r s) (1, 0)

/-- `expected_value` from the source: loop over the remaining table
entries, then add the steady-state tail term. -/
def expected_value (r : Rarity) (treasure_opening : ℕ) : ℚ :=
  (evLoop r (treasure_opening - 1)).2 +
    if treasure_opening ≤ MAX_ODDS then
      (evLoop r (treasure_opening - 1)).1 *
        (lastOdds r + (((MAX_ODDS - treasure_opening) + 1 : ℕ) : ℚ))
    else
      lastOdds r

/-- The `probability` scan-and-sum, recursively: from attempt index `i`
with survival probability `cum`, the success mass of the next `B`
attempts. -/
def probGo (r : Rarity) : ℕ → ℕ → ℚ → ℚ
  | _, 0, _ => 0
  | i, B + 1, cum =>
      let p := 1 / lookup r i
      cum * p + probGo r (i + 1) B (cum * (1 - p))

/-- `probability` from the source: success mass of `num_boxes` attempts
starting at attempt index `treasure_opening - 1`. -/
def probability (r : Rarity) (treasure_opening num_boxes : ℕ) : ℚ :=
  probGo r (treasure_opening - 1) num_boxes 1

/-- Cumulative survival over `B` consecutive attempts starting at attempt
index `i`: the product of `(1 - 1/odds)` over those attempts.
Modelled from the spec's consistency-law oracle. -/
def survGo (r : Rarity) : ℕ → ℕ → ℚ
  | _, 0 => 1
  | i, B + 1 => (1 - 1 / lookup r i) * survGo r (i + 1) B

/-- `cum_survival_after_B_steps` of the spec: survival over the `B`
attempts starting at `treasure_opening`. -/
def cum_survival (r : Rarity) (treasure_opening B : ℕ) : ℚ :=
  survGo r (treasure_opening - 1) B

/-- A logical field of a chart record: blank, an integer label, or a
numeric result. -/
inductive Cell where
  | blank : Cell
  | nat : ℕ → Cell
  | num : ℚ → Cell
deriving DecidableEq

/-- The logical rows written by `chart`: a header of three blank fields
then the box-count labels `1..=max_boxes`, and for each starting
treasure `t` in `1..=max_treasures` the row
`[t, expected_value, blank, probability(t,1), ..., probability(t,max_boxes)]`. -/
def chartRows (r : Rarity) (max_treasures max_boxes : ℕ) : List (List Cell) :=
  (List.replicate 3 Cell.blank ++
      (List.range max_boxes).map (fun n => Cell.nat (n + 1))) ::
    (List.range max_treasures).map (fun t0 =>
      [Cell.nat (t0 + 1), Cell.num (expected_value r (t0 + 1)), Cell.blank] ++
        (List.range max_boxes).map
          (fun b => Cell.num (probability r (t0 + 1) (b + 1))))

/-- Rust `usize` subtraction with its panic-on-underflow semantics. -/
def checkedSub (a b : ℕ) : Option ℕ :=
  if b ≤ a then some (a - b) else none

/-- `expected_value` with Rust's partiality made explicit: the unsigned
subtraction `treasure_opening - 1` and the `.last().unwrap()` are
modelled as `Option`. -/
def expected_valueChecked (r : Rarity) (treasure_opening : ℕ) : Option ℚ := do
  let s ← checkedSub treasure_opening 1
  let st := ((List.range MAX_ODDS).drop s).foldl (evStep r s) (1, 0)
  if treasure_opening ≤ MAX_ODDS then
    let d ← checkedSub MAX_ODDS treasure_opening
    let last ← r.odds.getLast?
    pure (st.2 + st.1 * (last + ((d + 1 : ℕ) : ℚ)))
  else
    let last ← r.odds.getLast?
    pure (st.2 + last)

/-- `probability` with Rust's partiality made explicit: the unsigned
subtraction `treasure_opening - 1` and the `.last().unwrap()` feeding
the extrapolating iterator are modelled as `Option`. -/
def probabilityChecked (r : Rarity) (treasure_opening num_boxes : ℕ) :
    Option ℚ := do
  let s ← checkedSub treasure_opening 1
  let _last ← r.odds.getLast?
  pure (probGo r s num_boxes 1)

/-! ## Basic table facts -/

/-- Every odds table has exactly `MAX_ODDS` entries. -/
theorem odds_length (r : Rarity) : r.odds.length = MAX_ODDS := by
  cases r <;> rfl

/-- Every stored odds entry is at least 1. -/
theorem one_le_mem_odds (r : Rarity) : ∀ x ∈ r.odds, 1 ≤ x := by
  cases r <;> intro x hx <;> fin_cases hx <;> norm_num

/-- The nonempty table's `.last()` is `lastOdds`. -/
theorem getLast?_odds (r : Rarity) : r.odds.getLast? = some (lastOdds r) := by
  cases r <;> rfl

/-- The last stored entry is at least 1. -/
theorem one_le_lastOdds (r : Rarity) : 1 ≤ lastOdds r := by
  have h : lastOdds r ∈ r.odds := by
    cases r <;> exact List.getLastD_mem_cons _ _
  exact one_le_mem_odds r _ h

/-- Every looked-up odds value is at least 1. -/
theorem one_le_lookup (r : Rarity) (i : ℕ) : 1 ≤ lookup r i := by
  unfold lookup
  rcases h : r.odds[i]? with _ | x
  · simpa using one_le_lastOdds r
  · simpa using one_le_mem_odds r x (List.getElem?_mem h)

/-- Beyond the table, `lookup` returns the last stored entry. -/
theorem lookup_of_ge (r : Rarity) (i : ℕ) (hi : MAX_ODDS ≤ i) :
    lookup r i = lastOdds r := by
  unfold lookup
  rw [List.getElem?_eq_none_iff.mpr (by rw [odds_length]; exact hi)]
  rfl

/-- The per-attempt success probability `1 / odds` lies in `(0, 1]`. -/
theorem succ_rate_mem (r : Rarity) (i : ℕ) :
    0 < 1 / lookup r i ∧ 1 / lookup r i ≤ 1 := by
  have h := one_le_lookup r i
  have hpos : 0 < lookup r i := lt_of_lt_of_le one_pos h
  exact ⟨div_pos one_pos hpos, by rw [div_le_one hpos]; exact h⟩

/-! ## The shared survival/success recurrence -/

/-- The success mass of `B` attempts from survival `cum` is
`cum * (1 - survival over those B attempts)`. -/
theorem probGo_eq (r : Rarity) (B : ℕ) :
    ∀ (i : ℕ) (cum : ℚ), probGo r i B cum = cum * (1 - survGo r i B) := by
  induction B with
  | zero => intro i cum; simp [probGo, survGo]
  | succ B ih =>
      intro i cum
      simp only [probGo, survGo]
      rw [ih]
      ring

/-- Cumulative survival is non-negative. -/
theorem survGo_nonneg (r : Rarity) (B : ℕ) :
    ∀ i : ℕ, 0 ≤ survGo r i B := by
  induction B with
  | zero => intro i; norm_num [survGo]
  | succ B ih =>
      intro i
      have h := succ_rate_mem r i
      exact mul_nonneg (by linarith [h.2]) (ih (i + 1))

/-- Cumulative survival is at most 1. -/
theorem survGo_le_one (r : Rarity) (B : ℕ) :
    ∀ i : ℕ, survGo r i B ≤ 1 := by
  induction B with
  | zero => intro i; norm_num [survGo]
  | succ B ih =>
      intro i
      have h := succ_rate_mem r i
      calc (1 - 1 / lookup r i) * survGo r (i + 1) B
          ≤ 1 * 1 :=
            mul_le_mul (by linarith [h.1]) (ih (i + 1))
              (survGo_nonneg r B (i + 1)) one_pos.le
        _ = 1 := mul_one 1

/-- Survival over one more attempt is no larger. -/
theorem survGo_succ_le (r : Rarity) (B : ℕ) :
    ∀ i : ℕ, survGo r i (B + 1) ≤ survGo r i B := by
  induction B with
  | zero =>
      intro i
      have h := succ_rate_mem r i
      simp only [survGo]
      nlinarith [h.1, h.2]
  | succ B ih =>
      intro i
      have h := succ_rate_mem r i
      have h2 := ih (i + 1)
      simp only [survGo]
      exact mul_le_mul_of_nonneg_left h2 (by linarith [h.2])

/-! ## Claims C2, C3, C4 -/

/-- C2: for every rarity tier, start position ≥ 1 and box budget `B`,
`probability` equals one minus the cumulative survival over the `B`
attempts starting there — the product of `(1 - 1/odds)` with flat
extrapolation beyond the table. -/
theorem probability_eq_one_sub_cum_survival (r : Rarity) (t B : ℕ)
    (ht : 1 ≤ t) :
    probability r t B = 1 - cum_survival r t B := by
  unfold probability cum_survival
  rw [probGo_eq]
  ring

/-- Witness for C2 at `(Rare, 1, 2)`. -/
theorem probability_eq_one_sub_cum_survival_witness :
    probability .Rare 1 2 = 1 - cum_survival .Rare 1 2 :=
  probability_eq_one_sub_cum_survival .Rare 1 2 (by decide)

/-- C3: `probability` always lies in `[0, 1]`, and is `0` for zero
boxes. -/
theorem probability_mem_unit_interval (r : Rarity) (t B : ℕ) (ht : 1 ≤ t) :
    0 ≤ probability r t B ∧ probability r t B ≤ 1 ∧
      probability r t 0 = 0 := by
  refine ⟨?_, ?_, rfl⟩
  · unfold probability
    rw [probGo_eq]
    have := survGo_le_one r B (t - 1)
    linarith
  · unfold probability
    rw [probGo_eq]
    have := survGo_nonneg r B (t - 1)
    linarith

/-- Witness for C3 at `(UltraRare, 3, 4)`. -/
theorem probability_mem_unit_interval_witness :
    0 ≤ probability .UltraRare 3 4 ∧ probability .UltraRare 3 4 ≤ 1 ∧
      probability .UltraRare 3 0 = 0 :=
  probability_mem_unit_interval .UltraRare 3 4 (by decide)

/-- C4: `probability` is non-decreasing in the box budget. -/
theorem probability_mono_num_boxes (r : Rarity) (t B : ℕ) (ht : 1 ≤ t) :
    probability r t B ≤ probability r t (B + 1) := by
  unfold probability
  rw [probGo_eq, probGo_eq]
  have := survGo_succ_le r B (t - 1)
  linarith

/-- Witness for C4 at `(VeryRare, 2, 5)`. -/
theorem probability_mono_num_boxes_witness :
    probability .VeryRare 2 5 ≤ probability .VeryRare 2 6 :=
  probability_mono_num_boxes .VeryRare 2 5 (by decide)

/-! ## The expected-value loop -/

/-- Every index of the dropped range is at least the drop count. -/
theorem mem_drop_range (n s i : ℕ) (h : i ∈ (List.range n).drop s) :
    s ≤ i := by
  rcases List.mem_iff_getElem.mp h with ⟨j, hj, hji⟩
  rw [List.getElem_drop, List.getElem_range] at hji
  omega

/-- Loop invariant of the `expected_value` fold: from a non-negative
survival `c`, the survival stays non-negative and `exp + cum_prob`
never decreases, as long as every processed index is at least `s`. -/
theorem evFold_invariant (r : Rarity) (s : ℕ) (L : List ℕ)
    (hL : ∀ i ∈ L, s ≤ i) :
    ∀ c e : ℚ, 0 ≤ c →
      0 ≤ (L.foldl (evStep r s) (c, e)).1 ∧
        e + c ≤ (L.foldl (evStep r s) (c, e)).2 +
          (L.foldl (evStep r s) (c, e)).1 := by
  induction L with
  | nil => intro c e hc; simpa using hc
  | cons i L ih =>
      intro c e hc
      have hi : s ≤ i := hL i (List.mem_cons_self i L)
      have hrate := succ_rate_mem r i
      have hstep : evStep r s (c, e) i =
          (c * (1 - 1 / lookup r i),
            e + (((i + 1) - s : ℕ) : ℚ) * c * (1 / lookup r i)) := rfl
      have hc' : 0 ≤ c * (1 - 1 / lookup r i) :=
        mul_nonneg hc (by linarith [hrate.2])
      have hoff : (1 : ℚ) ≤ (((i + 1) - s : ℕ) : ℚ) := by
        have h1 : 1 ≤ (i + 1) - s := by omega
        exact_mod_cast h1
      have step := ih (fun j hj => hL j (List.mem_cons_of_mem i hj))
        (c * (1 - 1 / lookup r i))
        (e + (((i + 1) - s : ℕ) : ℚ) * c * (1 / lookup r i)) hc'
      rw [List.foldl_cons, hstep]
      refine ⟨step.1, le_trans ?_ step.2⟩
      nlinarith [hrate.1, mul_nonneg hc hrate.1.le]

/-- The loop of `expected_value` starting from `(1, 0)`: survival stays
non-negative and `exp + cum_prob` is at least 1. -/
theorem evLoop_invariant (r : Rarity) (s : ℕ) :
    0 ≤ (evLoop r s).1 ∧ 1 ≤ (evLoop r s).2 + (evLoop r s).1 := by
  have h := evFold_invariant r s ((List.range MAX_ODDS).drop s)
      (fun i hi => mem_drop_range _ _ _ hi) 1 0 (by norm_num)
  simpa [evLoop] using h

/-- The last in-table index looks up the last stored entry. -/
theorem lookup_last_index (r : Rarity) :
    lookup r (MAX_ODDS - 1) = lastOdds r := by
  cases r <;> rfl

/-- At `treasure_opening = MAX_ODDS` the single loop step plus the tail
term gives exactly the last odds value. -/
theorem expected_value_at_end (r : Rarity) :
    expected_value r MAX_ODDS = lastOdds r := by
  have hL := one_le_lastOdds r
  have hne : lastOdds r ≠ 0 := by linarith
  have hdrop : (List.range MAX_ODDS).drop (MAX_ODDS - 1) =
      [MAX_ODDS - 1] := by decide
  unfold expected_value evLoop
  rw [hdrop, if_pos (le_refl MAX_ODDS)]
  simp only [List.foldl_cons, List.foldl_nil, evStep, lookup_last_index r]
  have h1 : ((MAX_ODDS - 1 + 1) - (MAX_ODDS - 1) : ℕ) = 1 := by decide
  have h2 : ((MAX_ODDS - MAX_ODDS) + 1 : ℕ) = 1 := by decide
  rw [h1, h2]
  push_cast
  field_simp
  ring

/-- Past the table the loop is empty and the else-branch returns the
last odds value. -/
theorem expected_value_beyond (r : Rarity) (t : ℕ) (ht : MAX_ODDS < t) :
    expected_value r t = lastOdds r := by
  have hdrop : (List.range MAX_ODDS).drop (t - 1) = [] := by
    refine List.drop_eq_nil_of_le ?_
    rw [List.length_range]
    omega
  unfold expected_value evLoop
  rw [hdrop, if_neg (by omega)]
  simp

/-! ## Claims C1, C5, C6 -/

/-- C1: for every rarity tier, `expected_value` at start position
`MAX_ODDS + k` (`k ≥ 0`) equals the table's last odds value exactly:
beyond the table it is returned directly, and at the table end the
loop-plus-tail computation also yields it. -/
theorem expected_value_tail_eq_lastOdds (r : Rarity) (k : ℕ) :
    expected_value r (MAX_ODDS + k) = lastOdds r := by
  cases k with
  | zero => simpa using expected_value_at_end r
  | succ k => exact expected_value_beyond r (MAX_ODDS + (k + 1)) (by omega)

/-- C5: `expected_value` is at least 1 for start positions within the
table, and non-negative for every start position ≥ 1. -/
theorem expected_value_ge_one (r : Rarity) (t : ℕ) (ht : 1 ≤ t) :
    (t ≤ MAX_ODDS → 1 ≤ expected_value r t) ∧ 0 ≤ expected_value r t := by
  have key : t ≤ MAX_ODDS → 1 ≤ expected_value r t := by
    intro htle
    have hinv := evLoop_invariant r (t - 1)
    have hL := one_le_lastOdds r
    have hd : (1 : ℚ) ≤ (((MAX_ODDS - t) + 1 : ℕ) : ℚ) := by
      exact_mod_cast Nat.le_add_left 1 _
    unfold expected_value
    rw [if_pos htle]
    nlinarith [hinv.1, hinv.2,
      mul_nonneg hinv.1
        (show (0 : ℚ) ≤ lastOdds r + (((MAX_ODDS - t) + 1 : ℕ) : ℚ) - 1 by
          linarith)]
  refine ⟨key, ?_⟩
  by_cases htle : t ≤ MAX_ODDS
  · linarith [key htle]
  · rw [expected_value_beyond r t (by omega)]
    linarith [one_le_lastOdds r]

/-- Witness for C5 at `(Rare, 7)`. -/
theorem expected_value_ge_one_witness :
    (7 ≤ MAX_ODDS → 1 ≤ expected_value .Rare 7) ∧
      0 ≤ expected_value .Rare 7 :=
  expected_value_ge_one .Rare 7 (by decide)

/-- Beyond the table the survival over `B` attempts is the geometric
`(1 - 1/lastOdds)^B`. -/
theorem survGo_const (r : Rarity) (B : ℕ) :
    ∀ i : ℕ, MAX_ODDS ≤ i → survGo r i B = (1 - 1 / lastOdds r) ^ B := by
  induction B with
  | zero => intro i hi; simp [survGo]
  | succ B ih =>
      intro i hi
      simp only [survGo]
      rw [lookup_of_ge r i hi, ih (i + 1) (by omega), pow_succ]
      ring

/-- C6: the odds used at any attempt index at or past the table end are
the last stored entry, so from start position `MAX_ODDS + 1` the
probability over `B` boxes is the geometric mass at constant
`lastOdds`, and the expected value is `lastOdds` itself. -/
theorem flat_extrapolation_beyond_table (r : Rarity) (i B : ℕ)
    (hi : MAX_ODDS ≤ i) :
    lookup r i = lastOdds r ∧
      probability r (MAX_ODDS + 1) B = 1 - (1 - 1 / lastOdds r) ^ B ∧
      expected_value r (MAX_ODDS + 1) = lastOdds r := by
  refine ⟨lookup_of_ge r i hi, ?_, expected_value_beyond r _ (by omega)⟩
  unfold probability
  rw [probGo_eq, survGo_const r B (MAX_ODDS + 1 - 1) (by omega)]
  ring

/-- Witness for C6 at `(VeryRare, 50, 3)`. -/
theorem flat_extrapolation_beyond_table_witness :
    lookup .VeryRare 50 = lastOdds .VeryRare ∧
      probability .VeryRare (MAX_ODDS + 1) 3 =
        1 - (1 - 1 / lastOdds .VeryRare) ^ 3 ∧
      expected_value .VeryRare (MAX_ODDS + 1) = lastOdds .VeryRare :=
  flat_extrapolation_beyond_table .VeryRare 50 3 (by decide)

/-! ## Claims C7, C8, C9, C10 -/

/-- C7: the Rare sweep with `max_treasures = 2`, `max_boxes = 2` emits
exactly three rows: the header of three blanks then the labels 1, 2,
and per start position a five-field row whose numeric fields are the
direct `expected_value` and `probability` calls. -/
theorem chart_sweep_rare_two_two :
    chartRows .Rare 2 2 =
      [[Cell.blank, Cell.blank, Cell.blank, Cell.nat 1, Cell.nat 2],
       [Cell.nat 1, Cell.num (expected_value .Rare 1), Cell.blank,
        Cell.num (probability .Rare 1 1), Cell.num (probability .Rare 1 2)],
       [Cell.nat 2, Cell.num (expected_value .Rare 2), Cell.blank,
        Cell.num (probability .Rare 2 1), Cell.num (probability .Rare 2 2)]] ∧
      (chartRows .Rare 2 2).length = 3 ∧
      (chartRows .Rare 2 2).map List.length = [5, 5, 5] := by
  exact ⟨rfl, rfl, rfl⟩

/-- The first UltraRare table entry is 100000. -/
theorem lookup_ultrarare_zero : lookup .UltraRare 0 = 100000 := rfl

/-- C8: one box from the first UltraRare opening succeeds with
probability exactly `1/100000`. -/
theorem probability_ultrarare_one_one :
    probability .UltraRare 1 1 = 1 / 100000 := by
  show probGo .UltraRare 0 1 1 = 1 / 100000
  simp only [probGo, lookup_ultrarare_zero]
  norm_num

/-- C9: every odds table stores exactly 50 entries, each at least 1, so
every per-attempt success probability `1/odds` lies in `(0, 1]` and the
divisions in `expected_value` and `probability` never divide by zero. -/
theorem odds_table_invariant (r : Rarity) (i : ℕ) :
    r.odds.length = MAX_ODDS ∧ (∀ x ∈ r.odds, 1 ≤ x) ∧
      1 ≤ lookup r i ∧ lookup r i ≠ 0 ∧
      0 < 1 / lookup r i ∧ 1 / lookup r i ≤ 1 := by
  have h1 := one_le_lookup r i
  have h2 := succ_rate_mem r i
  exact ⟨odds_length r, one_le_mem_odds r, h1, by linarith, h2.1, h2.2⟩

/-- C10: with `treasure_opening ≥ 1` the partiality-explicit models of
both operations succeed and agree with the total embeddings, while at
`treasure_opening = 0` the unsigned subtraction underflows and both
fail. -/
theorem checked_totality (r : Rarity) (t B : ℕ) (ht : 1 ≤ t) :
    expected_valueChecked r t = some (expected_value r t) ∧
      probabilityChecked r t B = some (probability r t B) ∧
      expected_valueChecked r 0 = none ∧
      probabilityChecked r 0 B = none := by
  have hsub : checkedSub t 1 = some (t - 1) := if_pos ht
  have hsub0 : checkedSub 0 1 = none := rfl
  refine ⟨?_, ?_, ?_, ?_⟩
  · unfold expected_valueChecked
    rw [hsub]
    by_cases htle : t ≤ MAX_ODDS
    · have hsub2 : checkedSub MAX_ODDS t = some (MAX_ODDS - t) := if_pos htle
      simp [htle, hsub2, getLast?_odds r, expected_value, evLoop]
    · simp [htle, getLast?_odds r, expected_value, evLoop]
  · unfold probabilityChecked
    rw [hsub, getLast?_odds r]
    simp [probability]
  · unfold expected_valueChecked
    rw [hsub0]
    rfl
  · unfold probabilityChecked
    rw [hsub0]
    rfl

/-- Witness for C10 at `(UltraRare, 2, 1)`. -/
theorem checked_totality_witness :
    expected_valueChecked .UltraRare 2 = some (expected_value .UltraRare 2) ∧
      probabilityChecked .UltraRare 2 1 =
        some (probability .UltraRare 2 1) ∧
      expected_valueChecked .UltraRare 0 = none ∧
      probabilityChecked .UltraRare 0 1 = none :=
  checked_totality .UltraRare 2 1 (by decide)
